import Mathlib

/-!
Verification of the duplicate-bug-detection subsystem of the bug-sense
browser extension.

The development shallowly embeds the pipeline's source files:
* `extension/utils/transformer.ts` — `cosineSimilarity`, `findDuplicates`
  (the external embedding model is a function parameter `embed`);
* `extension/content/duplicateBugDetector.ts` — row reconstruction from
  grid cells, feature-string construction, the detection pass and its
  DOM/overlay effects (the DOM highlight state is made explicit);
* the ignore-list cache (`addIgnoredPair` over browser local storage,
  storage modeled as an explicit list value) and the ignore filter of the
  frontend variant of `duplicateBugDetector.ts`.

Machine floats are modeled by exact real arithmetic; JavaScript string
`sort()` (lexicographic by code units) and `Array.prototype.join` are
modeled faithfully by dedicated functions.
-/

namespace BugSense

/-- An item submitted for embedding: `{ id, text }` in the source. -/
structure Item where
  id : ℕ
  text : String
deriving DecidableEq, Repr

/-- A similarity pair `{ i, j, score }` produced by `findDuplicates`. -/
structure SimPair where
  i : ℕ
  j : ℕ
  score : ℝ

/-- Truncation in `transformer.ts` before embedding: trim, then slice to at
most 2000 characters. -/
def truncateText (s : String) : String :=
  let t := s.trim
  if t.length > 2000 then t.take 2000 else t

/-- Dot product loop of `cosineSimilarity` (`dot += a[i] * b[i]`). -/
def dotList (a b : List ℝ) : ℝ :=
  (List.zipWith (fun x y => x * y) a b).sum

/-- Sum-of-squares accumulators of `cosineSimilarity`
(`na += a[i]*a[i]`, `nb += b[i]*b[i]`). -/
def sumSq (a : List ℝ) : ℝ :=
  (a.map (fun x => x * x)).sum

/-- Function `cosineSimilarity` from `transformer.ts`: returns `0` on a length
mismatch or when either vector has zero norm, otherwise
`dot / (sqrt na * sqrt nb)`. -/
noncomputable def cosineSimilarity (a b : List ℝ) : ℝ :=
  if a.length ≠ b.length then 0
  else if sumSq a = 0 ∨ sumSq b = 0 then 0
  else dotList a b / (Real.sqrt (sumSq a) * Real.sqrt (sumSq b))

/-- The double loop of `findDuplicates`: for every `i`, for every
`j ∈ [i+1, n)`, keep `⟨i, j, score⟩` when `score >= threshold`. -/
noncomputable def pairsFromEmbeddings (e : List (List ℝ)) (t : ℝ) :
    List SimPair :=
  (List.range e.length).flatMap (fun i =>
    (List.range' (i + 1) (e.length - (i + 1))).filterMap (fun j =>
      let score := cosineSimilarity (e.getD i []) (e.getD j [])
      if t ≤ score then some ⟨i, j, score⟩ else none))

/-- Result record of `findDuplicates`: `{ embeddings, pairs }`. -/
structure DupResult where
  embeddings : List (List ℝ)
  pairs : List SimPair

/-- Function `findDuplicates` from `transformer.ts`, parameterized by the external
embedding function (`embedTexts` is an opaque external collaborator,
modeled as a fixed deterministic function). -/
noncomputable def findDuplicates (embed : List String → List (List ℝ))
    (items : List Item) (threshold : ℝ) : DupResult :=
  if items.isEmpty then ⟨[], []⟩
  else
    let texts := items.map (fun it => truncateText it.text)
    let embeddings := embed texts
    ⟨embeddings, pairsFromEmbeddings embeddings threshold⟩

/-! ## Ignore-list cache (`addIgnoredPair`, `getIgnoredPairs`)

`localStorage` is modeled by passing the stored list of keys explicitly:
`getIgnoredPairs` is the identity on that value, `addIgnoredPair` returns
the updated value. -/

/-- Lexicographic comparison of character lists, mirroring the JavaScript
string `<` comparison used by the default `Array.prototype.sort`
comparator (by code units; identical to code-point order on ASCII). -/
def lexLt : List Char → List Char → Bool
  | [], [] => false
  | [], _ :: _ => true
  | _ :: _, [] => false
  | a :: as, b :: bs =>
    if a < b then true else if b < a then false else lexLt as bs

/-- JavaScript string comparison `String(a) < String(b)`. -/
def jsStrLt (a b : String) : Bool := lexLt a.data b.data

/-- JavaScript `[idA, idB].sort()`: the default comparator converts the
numbers to strings and orders them lexicographically. -/
def jsNumSort2 (a b : ℕ) : ℕ × ℕ :=
  if jsStrLt (Nat.repr b) (Nat.repr a) then (b, a) else (a, b)

/-- The ignore-list key: `[idA, idB].sort().join("-")`. -/
def jsSortKey (a b : ℕ) : String :=
  Nat.repr (jsNumSort2 a b).1 ++ "-" ++ Nat.repr (jsNumSort2 a b).2

/-- Function `addIgnoredPair` from the cache utility: append the key to the stored
list unless it is already present. -/
def addIgnoredPair (idA idB : ℕ) (list : List String) : List String :=
  let key := jsSortKey idA idB
  if list.contains key then list else list ++ [key]

/-- Function `isIgnoredPair` from the cache utility. -/
def isIgnoredPair (idA idB : ℕ) (list : List String) : Bool :=
  list.contains (jsSortKey idA idB)

/-- The ignore filter of the frontend detector variant:
`pairs.filter(p => !ignored.includes([p.i, p.j].sort().join("-")))`. -/
def filterIgnoredPairs (ignored : List String) (pairs : List SimPair) :
    List SimPair :=
  pairs.filter (fun p => !(ignored.contains (jsSortKey p.i p.j)))

/-! ## Grid extraction (`buildRowsFromCells`) -/

/-- A DOM grid cell as read by `buildRowsFromCells`: the parsed
`aria-rowindex` / `aria-colindex` attributes (absent attributes are
`none`) and the cell's `innerText`. -/
structure CellEl where
  ariaRow : Option ℕ
  ariaCol : Option ℕ
  text : String
deriving DecidableEq, Repr

/-- The rows map: JavaScript `Map<number, string[]>` as an association
list in key-insertion order. Array holes created by out-of-range index
assignment are filled with `""` (indistinguishable from empty cells in
every later use: `cells[i] || ""`, `join`, `filter(Boolean)`). -/
def RowsMap : Type := List (ℕ × List String)

/-- Lookup `rowsMap.get(r)`. -/
def lookupRow : RowsMap → ℕ → Option (List String)
  | [], _ => none
  | (k, v) :: rest, r => if k = r then some v else lookupRow rest r

/-- Update `rowsMap.set(r, v)`: overwrite in place, or append a new binding
(JavaScript `Map` keeps first-insertion ordering). -/
def updateRow : RowsMap → ℕ → List String → RowsMap
  | [], r, v => [(r, v)]
  | (k, w) :: rest, r, v =>
    if k = r then (r, v) :: rest else (k, w) :: updateRow rest r v

/-- JavaScript `arr[idx] = v` on an array of strings: set in place, or
extend with holes (modeled as `""`) and then the value. -/
def setSlot (arr : List String) (idx : ℕ) (v : String) : List String :=
  if idx < arr.length then arr.set idx v
  else arr ++ List.replicate (idx - arr.length) "" ++ [v]

/-- One iteration of the `cells.forEach` body of `buildRowsFromCells`:
skip cells without a row attribute; with a column attribute write at
`colIndex - 1` (a zero column index would be JavaScript `arr[-1] = v`,
which leaves the array contents unchanged); without one, push. -/
def buildRowsStep (m : RowsMap) (c : CellEl) : RowsMap :=
  match c.ariaRow with
  | none => m
  | some r =>
    let arr := (lookupRow m r).getD []
    let arr' :=
      match c.ariaCol with
      | some col => if col = 0 then arr else setSlot arr (col - 1) c.text.trim
      | none => arr ++ [c.text.trim]
    updateRow m r arr'

/-- Function `buildRowsFromCells` from `duplicateBugDetector.ts`. -/
def buildRowsFromCells (cells : List CellEl) : RowsMap :=
  cells.foldl buildRowsStep []

/-! ## Detection pass (`runDuplicateDetectionFromRowsMap`) -/

/-- The distinct row indices present in the map (JavaScript `Map` keys). -/
def mapKeys (m : RowsMap) : List ℕ := (m.map Prod.fst).dedup

/-- The sorted key list `Array.from(rowsMap.keys()).sort((a, b) => a - b)`. -/
def sortedRowIndices (m : RowsMap) : List ℕ :=
  List.insertionSort (· ≤ ·) (mapKeys m)

/-- The designated header row: the first sorted row index. -/
def headerRowIndex (m : RowsMap) : ℕ := (sortedRowIndices m).headD 0

/-- JavaScript `Array.prototype.join(sep)` on strings. -/
def jsJoin (sep : String) : List String → String
  | [] => ""
  | [x] => x
  | x :: y :: xs => x ++ sep ++ jsJoin sep (y :: xs)

/-- The allow-list of interesting header substrings. -/
def preferredCols : List String :=
  ["title", "summary", "description", "steps", "repro", "reproduction"]

/-- JavaScript `h.includes(p)`: substring containment. -/
def strIncludes (h p : String) : Bool := decide (p.data <:+: h.data)

/-- Function `buildRowString` from `runDuplicateDetectionFromRowsMap`: pick the
cells whose (lower-cased) header matches a preferred substring; if none
matched, fall back to the first three cells; always append the full
space-joined row; drop falsy (empty) parts and join with " . ". -/
def buildRowString (headerLower : List String) (cells : List String) :
    String :=
  let picked := (List.range cells.length).filterMap (fun i =>
    let h := (headerLower.get? i).getD ""
    let cellText := (cells.get? i).getD ""
    if preferredCols.any (fun p => strIncludes h p) then some cellText
    else none)
  let picked2 := if picked.isEmpty then cells.take 3 else picked
  let picked3 := picked2 ++ [jsJoin " " cells]
  jsJoin " . " (picked3.filter (fun s => !(s == "")))

/-- The `itemsForEmbedding` construction of
`runDuplicateDetectionFromRowsMap`: header = row at the first sorted
index, data rows = the remaining sorted indices, each contributing
`{ id := rowIndex, text := buildRowString(cells) }`. -/
def itemsForEmbedding (m : RowsMap) : List Item :=
  let keys := sortedRowIndices m
  let header := (lookupRow m (keys.headD 0)).getD []
  let headerLower := header.map (fun h => h.toLower)
  (keys.drop 1).map (fun r =>
    { id := r, text := buildRowString headerLower ((lookupRow m r).getD []) })

/-- The id access `itemsForEmbedding[k].id` (out-of-range access yields the default 0;
the source would throw there, which never happens for well-formed
embedding output). -/
def itemIdAt (items : List Item) (k : ℕ) : ℕ :=
  ((items.get? k).map Item.id).getD 0

/-- The set of row indices highlighted as duplicates: every pair's two
endpoints translated through `itemsForEmbedding[..].id` (the source
builds `groups` and then a `Set` holding each root and its members; as a
set of rows that is exactly the translated endpoints of all pairs). -/
def duplicateRowsOf (items : List Item) (pairs : List SimPair) : Finset ℕ :=
  pairs.foldl
    (fun s p => insert (itemIdAt items p.i) (insert (itemIdAt items p.j) s)) ∅

/-- Message emitted to the extension runtime after a pass. -/
inductive Msg where
  | noDuplicates : Msg
  | duplicatesFound : ℕ → Finset ℕ → Msg
  | duplicateError : String → Msg
deriving DecidableEq

/-- The DOM state the detector touches: the overlay summary (pairs shown
and the "rows checked" count) and the set of rows currently carrying the
marker highlight color `rgba(255, 230, 230, 0.9)`. -/
structure DomState where
  overlay : Option (List SimPair × ℕ)
  marker : Finset ℕ

/-- Function `clearPreviousHighlights`: remove the overlay element and reset the
style of every cell whose background contains the marker color. -/
def clearPreviousHighlights (_s : DomState) : DomState :=
  ⟨none, ∅⟩

/-- Function `renderOverlaySummary(pairs, itemsCount)`: clears previous highlights
first (the source calls `clearPreviousHighlights()` on entry), then
installs the overlay. -/
def renderOverlaySummary (s : DomState) (pairs : List SimPair) (n : ℕ) :
    DomState :=
  { clearPreviousHighlights s with overlay := some (pairs, n) }

/-- The highlight loop: give every duplicate row the marker background. -/
def applyHighlightRows (s : DomState) (rows : Finset ℕ) : DomState :=
  { s with marker := s.marker ∪ rows }

/-- The row numbers the overlay displays for a pair:
`Row ${p.i + 2} ↔ Row ${p.j + 2}` in `renderOverlaySummary`. -/
def overlayDisplayedRows (p : SimPair) : ℕ × ℕ := (p.i + 2, p.j + 2)

/-- Constant `DUP_THRESHOLD` of `duplicateBugDetector.ts`. -/
noncomputable def DUP_THRESHOLD : ℝ := 0.86

/-- Outcome of one detection pass: the surviving pairs, the number of
items checked, and the message sent to the extension runtime. -/
structure PassResult where
  pairs : List SimPair
  itemsCount : ℕ
  message : Msg

/-- Function `runDuplicateDetectionFromRowsMap` from `duplicateBugDetector.ts`,
acting on the explicit DOM state. -/
noncomputable def runDuplicateDetectionFromRowsMap
    (embed : List String → List (List ℝ)) (m : RowsMap) (s : DomState) :
    DomState × PassResult :=
  if (sortedRowIndices m).length < 2 then
    (renderOverlaySummary s [] 0, ⟨[], 0, Msg.noDuplicates⟩)
  else
    let items := itemsForEmbedding m
    let pairs := (findDuplicates embed items DUP_THRESHOLD).pairs
    if pairs.isEmpty then
      (renderOverlaySummary s [] items.length,
       ⟨[], items.length, Msg.noDuplicates⟩)
    else
      let dupRows := duplicateRowsOf items pairs
      let s1 := applyHighlightRows s dupRows
      (renderOverlaySummary s1 pairs items.length,
       ⟨pairs, items.length, Msg.duplicatesFound pairs.length dupRows⟩)

/-- Feature string as the specification words it for the no-match
fallback, for comparison with `buildRowString`: "first three cells
joined . full row text". -/
def specFallbackFeature (cells : List String) : String :=
  jsJoin " . " (cells.take 3) ++ " . " ++ jsJoin " " cells

/-- The content of the slot at column position `k` (0-based) of row `r`
of a rows map. -/
def slotAt (m : RowsMap) (r k : ℕ) : Option String :=
  ((lookupRow m r).getD []).get? k

/-! ## Lemmas about the JavaScript string ordering and ignore keys -/

theorem lexLt_asymm : ∀ {a b : List Char}, lexLt a b = true → lexLt b a = false := by
  intro a
  induction a with
  | nil =>
    intro b h
    cases b with
    | nil => simp [lexLt] at h
    | cons y ys => simp [lexLt]
  | cons x xs ih =>
    intro b h
    cases b with
    | nil => simp [lexLt] at h
    | cons y ys =>
      simp only [lexLt] at h ⊢
      by_cases hxy : x < y
      · have hyx : ¬ y < x := asymm hxy
        simp [hxy, hyx]
      · by_cases hyx : y < x
        · simp [hxy, hyx] at h
        · simp only [hxy, hyx, if_false] at h ⊢
          exact ih h

theorem lexLt_antisymm : ∀ {a b : List Char},
    lexLt a b = false → lexLt b a = false → a = b := by
  intro a
  induction a with
  | nil =>
    intro b h1 _
    cases b with
    | nil => rfl
    | cons y ys => simp [lexLt] at h1
  | cons x xs ih =>
    intro b h1 h2
    cases b with
    | nil => simp [lexLt] at h2
    | cons y ys =>
      simp only [lexLt] at h1 h2
      by_cases hxy : x < y
      · simp [hxy] at h1
      · by_cases hyx : y < x
        · simp [hxy, hyx] at h2
        · have hx : x = y := le_antisymm (le_of_not_lt hyx) (le_of_not_lt hxy)
          simp only [hxy, hyx, if_false] at h1 h2
          rw [hx, ih h1 h2]

theorem jsStrLt_antisymm {a b : String} (h1 : jsStrLt a b = false)
    (h2 : jsStrLt b a = false) : a = b := by
  have h : a.data = b.data := lexLt_antisymm h1 h2
  cases a; cases b
  exact congrArg String.mk h

theorem lexLt_irrefl : ∀ a : List Char, lexLt a a = false := by
  intro a
  induction a with
  | nil => rfl
  | cons x xs ih => simp [lexLt, lt_irrefl, ih]

theorem jsStrLt_irrefl (s : String) : jsStrLt s s = false :=
  lexLt_irrefl s.data

theorem jsSortKey_comm (a b : ℕ) : jsSortKey a b = jsSortKey b a := by
  unfold jsSortKey jsNumSort2
  by_cases h : jsStrLt (Nat.repr b) (Nat.repr a)
  · have h' : jsStrLt (Nat.repr a) (Nat.repr b) = false := lexLt_asymm h
    simp [h, h']
  · by_cases h2 : jsStrLt (Nat.repr a) (Nat.repr b)
    · simp [h, h2]
    · have : Nat.repr a = Nat.repr b :=
        jsStrLt_antisymm (Bool.of_not_eq_true h2) (Bool.of_not_eq_true h)
      simp [h, h2, this, jsStrLt_irrefl]

/-- Claim C7, counterexample: for row ids 2 and 10 the persisted key is
"10-2" (JavaScript default `sort()` orders numbers as strings), not the
numerically ascending "2-10" the claim states. -/
theorem jsSortKey_two_ten_counterexample :
    jsSortKey 2 10 = "10-2" ∧ jsSortKey 2 10 ≠ "2-10" := by
  constructor
  · rfl
  · decide

/-- Claim C7 (amended): for every pair of row ids, the persisted
ignore-list key equals the two ids' decimal strings sorted ascending in
the lexicographic (JavaScript default, code-unit) string order and joined
with "-"; the key is symmetric in its arguments. The order is numeric
ascending only when the decimal strings compare the same way (e.g. the
key for ids 2 and 10 is "10-2"). -/
theorem jsSortKey_lex_sorted (a b : ℕ) :
    jsSortKey a b = jsSortKey b a ∧
    ∃ x y : ℕ, ((x, y) = (a, b) ∨ (x, y) = (b, a)) ∧
      jsSortKey a b = Nat.repr x ++ "-" ++ Nat.repr y ∧
      jsStrLt (Nat.repr y) (Nat.repr x) = false := by
  refine ⟨jsSortKey_comm a b, ?_⟩
  by_cases h : jsStrLt (Nat.repr b) (Nat.repr a)
  · exact ⟨b, a, Or.inr rfl, by simp [jsSortKey, jsNumSort2, h], lexLt_asymm h⟩
  · exact ⟨a, b, Or.inl rfl, by simp [jsSortKey, jsNumSort2, h],
      Bool.of_not_eq_true h⟩

/-- Claim C10: `addIgnoredPair` leaves the stored list unchanged when the
pair's key is already present, is idempotent, and preserves the
duplicate-free invariant of the stored key list. -/
theorem addIgnoredPair_idem (a b : ℕ) (l : List String) :
    (l.contains (jsSortKey a b) = true → addIgnoredPair a b l = l) ∧
    addIgnoredPair a b (addIgnoredPair a b l) = addIgnoredPair a b l ∧
    (l.Nodup → (addIgnoredPair a b l).Nodup) := by
  refine ⟨fun h => ?_, ?_, ?_⟩
  · have hm : jsSortKey a b ∈ l := by simpa using h
    simp [addIgnoredPair, hm]
  · by_cases hm : jsSortKey a b ∈ l
    · simp [addIgnoredPair, hm]
    · have h2 : jsSortKey a b ∈ l ++ [jsSortKey a b] := by simp
      simp [addIgnoredPair, hm, h2]
  · intro hnd
    by_cases hm : jsSortKey a b ∈ l
    · simpa [addIgnoredPair, hm] using hnd
    · simp [addIgnoredPair, hm, List.nodup_append, hnd]

/-- Witness for C10 at concrete inputs: re-adding the already-stored key
"1-2" leaves the list unchanged, and the updated store stays
duplicate-free. -/
theorem addIgnoredPair_idem_witness :
    addIgnoredPair 1 2 ["1-2"] = ["1-2"] ∧ (addIgnoredPair 1 2 []).Nodup :=
  ⟨(addIgnoredPair_idem 1 2 ["1-2"]).1 (by decide),
   (addIgnoredPair_idem 1 2 []).2.2 (by decide)⟩

/-- Claim C6: after `addIgnoredPair a b`, the pair's key (in either
argument order) is in the persisted ignore list, and consequently any
pair whose endpoints are `a` and `b` (in either order) is removed by the
next pass's ignore filter, hence absent from its surviving pairs. -/
theorem addIgnoredPair_roundtrip (a b : ℕ) (l : List String)
    (pairs : List SimPair) :
    jsSortKey a b ∈ addIgnoredPair a b l ∧
    jsSortKey b a ∈ addIgnoredPair a b l ∧
    ∀ p ∈ pairs, (p.i = a ∧ p.j = b) ∨ (p.i = b ∧ p.j = a) →
      p ∉ filterIgnoredPairs (addIgnoredPair a b l) pairs := by
  have hmem : jsSortKey a b ∈ addIgnoredPair a b l := by
    unfold addIgnoredPair
    by_cases hm : jsSortKey a b ∈ l
    · simp [hm]
    · simp [hm]
  refine ⟨hmem, jsSortKey_comm b a ▸ hmem, ?_⟩
  rintro p _ hab hfilter
  have hkey : jsSortKey p.i p.j = jsSortKey a b := by
    rcases hab with ⟨h1, h2⟩ | ⟨h1, h2⟩
    · rw [h1, h2]
    · rw [h1, h2]; exact jsSortKey_comm b a
  have hpred := (List.mem_filter.mp hfilter).2
  rw [hkey] at hpred
  simp [hmem] at hpred

/-- Witness for C6 at concrete inputs: after dismissing (1, 2), the pair
⟨1, 2⟩ does not survive the ignore filter. -/
theorem addIgnoredPair_roundtrip_witness :
    (⟨1, 2, 1⟩ : SimPair) ∉
      filterIgnoredPairs (addIgnoredPair 1 2 []) [⟨1, 2, 1⟩] :=
  (addIgnoredPair_roundtrip 1 2 [] [⟨1, 2, 1⟩]).2.2 ⟨1, 2, 1⟩ (by simp)
    (Or.inl ⟨rfl, rfl⟩)

/-! ## Lemmas about `cosineSimilarity` -/

theorem sumSq_nonneg (a : List ℝ) : 0 ≤ sumSq a := by
  unfold sumSq
  apply List.sum_nonneg
  intro x hx
  obtain ⟨y, _, rfl⟩ := List.mem_map.mp hx
  exact mul_self_nonneg y

theorem sumSq_pos_of_mem {a : List ℝ} {x : ℝ} (hx : x ∈ a) (hx0 : x ≠ 0) :
    0 < sumSq a := by
  induction a with
  | nil => cases hx
  | cons y ys ih =>
    have hstep : sumSq (y :: ys) = y * y + sumSq ys := by
      simp [sumSq]
    rcases List.mem_cons.mp hx with rfl | hmem
    · rw [hstep]
      exact add_pos_of_pos_of_nonneg (mul_self_pos.mpr hx0) (sumSq_nonneg ys)
    · rw [hstep]
      exact add_pos_of_nonneg_of_pos (mul_self_nonneg y) (ih hmem)

theorem dotList_self (a : List ℝ) : dotList a a = sumSq a := by
  induction a with
  | nil => rfl
  | cons x xs ih =>
    simp only [dotList, sumSq, List.zipWith_cons_cons, List.map_cons,
      List.sum_cons] at ih ⊢
    rw [ih]

/-- Claim C8: for equal-length vectors, `cosineSimilarity` is the dot
product divided by the product of the Euclidean norms, except that it is
0 when either vector has a zero norm; and on any vector with a nonzero
entry it evaluates to 1 against itself (over exact arithmetic). -/
theorem cosineSimilarity_spec (a b : List ℝ) (hlen : a.length = b.length) :
    (sumSq a ≠ 0 ∧ sumSq b ≠ 0 →
      cosineSimilarity a b =
        dotList a b / (Real.sqrt (sumSq a) * Real.sqrt (sumSq b))) ∧
    (sumSq a = 0 ∨ sumSq b = 0 → cosineSimilarity a b = 0) ∧
    ((∃ x ∈ a, x ≠ 0) → cosineSimilarity a a = 1) := by
  refine ⟨fun h => ?_, fun h => ?_, fun h => ?_⟩
  · have hor : ¬(sumSq a = 0 ∨ sumSq b = 0) := by
      rintro (h0 | h0)
      · exact h.1 h0
      · exact h.2 h0
    simp [cosineSimilarity, hlen, hor]
  · simp [cosineSimilarity, hlen, h]
  · obtain ⟨x, hx, hx0⟩ := h
    have hpos : 0 < sumSq a := sumSq_pos_of_mem hx hx0
    have hne : ¬(sumSq a = 0 ∨ sumSq a = 0) := by
      rw [or_self]
      exact ne_of_gt hpos
    simp only [cosineSimilarity, ne_eq, not_true_eq_false, if_false,
      if_neg hne, dotList_self]
    rw [Real.mul_self_sqrt (le_of_lt hpos)]
    exact div_self (ne_of_gt hpos)

/-- Witness for C8 at concrete vectors: `[1, 0]` against itself has
similarity 1, and the zero vector `[0]` yields similarity 0. -/
theorem cosineSimilarity_spec_witness :
    cosineSimilarity [(1 : ℝ), 0] [1, 0] = 1 ∧
    cosineSimilarity [(0 : ℝ)] [0] = 0 :=
  ⟨(cosineSimilarity_spec [(1 : ℝ), 0] [1, 0] rfl).2.2
      ⟨1, by simp, one_ne_zero⟩,
   (cosineSimilarity_spec [(0 : ℝ)] [0] rfl).2.1
      (Or.inl (by norm_num [sumSq]))⟩

/-! ## Lemmas about `jsJoin` and the feature string -/

theorem jsJoin_append_singleton (sep x : String) :
    ∀ l : List String, l ≠ [] →
      jsJoin sep (l ++ [x]) = jsJoin sep l ++ sep ++ x := by
  intro l
  induction l with
  | nil => intro h; cases h rfl
  | cons a t ih =>
    intro _
    cases t with
    | nil => rfl
    | cons b t' =>
      have hstep : jsJoin sep (a :: b :: t' ++ [x]) =
          a ++ sep ++ jsJoin sep (b :: (t' ++ [x])) := rfl
      have ih' : jsJoin sep (b :: (t' ++ [x])) =
          jsJoin sep (b :: t') ++ sep ++ x := ih (by simp)
      rw [hstep, ih', jsJoin]
      cases t' <;> simp [String.append_assoc]

theorem string_append_ne_empty_left {a : String} (b : String) (h : a ≠ "") :
    a ++ b ≠ "" := by
  intro hab
  apply h
  have hlen : (a ++ b).length = 0 := by rw [hab]; rfl
  rw [String.length_append] at hlen
  have : a.length = 0 := by omega
  cases a with
  | mk data =>
    cases data with
    | nil => rfl
    | cons c cs => simp [String.length, List.length] at this

theorem jsJoin_ne_empty (sep : String) :
    ∀ {l : List String}, l ≠ [] → (∀ c ∈ l, c ≠ "") → jsJoin sep l ≠ "" := by
  intro l
  cases l with
  | nil => intro h; cases h rfl
  | cons a t =>
    intro _ hall
    cases t with
    | nil => exact hall a (by simp)
    | cons b t' =>
      have : jsJoin sep (a :: b :: t') = a ++ (sep ++ jsJoin sep (b :: t')) := by
        rw [jsJoin, String.append_assoc]
      rw [this]
      exact string_append_ne_empty_left _ (hall a (by simp))

/-- Claim C5, counterexample: for a row whose header matches no
recognized substring but whose only cell is the empty string, the
feature string is the empty string — the `filter(Boolean)` step drops
empty parts — and in particular differs from "first three cells
joined . full row text". -/
theorem buildRowString_empty_counterexample :
    (∀ p ∈ preferredCols, strIncludes "c1" p = false) ∧
    buildRowString ["c1"] [""] = "" ∧
    specFallbackFeature [""] = " . " ∧
    buildRowString ["c1"] [""] ≠ specFallbackFeature [""] := by
  refine ⟨by decide, rfl, rfl, by decide⟩

/-- Claim C5 (amended): for a nonempty row whose header matches no
recognized column-name substring and whose first (up to) three cells are
all nonempty, the feature string equals the first three cells joined
with " . " followed by " . " and the full space-joined row text, and it
is not the empty string. (Empty cells among the first three are dropped
by the source's `filter(Boolean)`, and a row of empty cells can produce
the empty string.) -/
theorem buildRowString_fallback (headerLower cells : List String)
    (hnomatch : ∀ i, i < cells.length →
      ∀ p ∈ preferredCols, strIncludes ((headerLower.get? i).getD "") p = false)
    (hne : cells ≠ [])
    (h3 : ∀ c ∈ cells.take 3, c ≠ "") :
    buildRowString headerLower cells = specFallbackFeature cells ∧
    buildRowString headerLower cells ≠ "" := by
  have hpicked : ((List.range cells.length).filterMap (fun i =>
      let h := (headerLower.get? i).getD ""
      let cellText := (cells.get? i).getD ""
      if preferredCols.any (fun p => strIncludes h p) then some cellText
      else none)) = [] := by
    rw [List.filterMap_eq_nil_iff]
    intro i hi
    have hibound := List.mem_range.mp hi
    have hany : preferredCols.any
        (fun p => strIncludes ((headerLower.get? i).getD "") p) = false := by
      rw [List.any_eq_false]
      intro p hp
      simp only [hnomatch i hibound p hp]
      simp
    show (if (preferredCols.any
        (fun p => strIncludes ((headerLower.get? i).getD "") p)) = true
      then some ((cells.get? i).getD "") else none) = none
    rw [hany]
    simp
  obtain ⟨c0, rest, rfl⟩ := List.exists_cons_of_ne_nil hne
  have hc0 : c0 ≠ "" := h3 c0 (by simp)
  have hjoinall : jsJoin " " (c0 :: rest) ≠ "" := by
    cases rest with
    | nil => exact hc0
    | cons b t =>
      have : jsJoin " " (c0 :: b :: t) = c0 ++ (" " ++ jsJoin " " (b :: t)) := by
        rw [jsJoin, String.append_assoc]
      rw [this]
      exact string_append_ne_empty_left _ hc0
  have htake_ne : (c0 :: rest).take 3 ≠ [] := by simp
  have hfilter : ((c0 :: rest).take 3 ++ [jsJoin " " (c0 :: rest)]).filter
      (fun s => !(s == "")) = (c0 :: rest).take 3 ++ [jsJoin " " (c0 :: rest)] := by
    rw [List.filter_eq_self]
    intro s hs
    rcases List.mem_append.mp hs with hs3 | hsj
    · simpa using h3 s hs3
    · have : s = jsJoin " " (c0 :: rest) := by simpa using hsj
      subst this
      simpa using hjoinall
  have hbuild : buildRowString headerLower (c0 :: rest) =
      jsJoin " . " ((c0 :: rest).take 3 ++ [jsJoin " " (c0 :: rest)]) := by
    unfold buildRowString
    rw [hpicked]
    simp only [List.isEmpty_nil, if_true, hfilter]
  constructor
  · rw [hbuild, jsJoin_append_singleton _ _ _ htake_ne]
    rfl
  · rw [hbuild, jsJoin_append_singleton _ _ _ htake_ne]
    intro hcontra
    have hlen := congrArg String.length hcontra
    rw [String.length_append, String.length_append] at hlen
    have hsep : (" . " : String).length = 3 := rfl
    have hzero : ("" : String).length = 0 := rfl
    rw [hsep, hzero] at hlen
    omega

/-- Witness for C5 at a concrete row: header ["c1"] matches nothing, the
two cells "a" and "b" give "a . b . a b", which is nonempty. -/
theorem buildRowString_fallback_witness :
    buildRowString ["c1"] ["a", "b"] = specFallbackFeature ["a", "b"] ∧
    buildRowString ["c1"] ["a", "b"] ≠ "" :=
  buildRowString_fallback ["c1"] ["a", "b"] (by decide) (by decide) (by decide)

/-! ## Lemmas about `pairsFromEmbeddings` and `findDuplicates` -/

theorem mem_pairsFromEmbeddings (e : List (List ℝ)) (t : ℝ) (i j : ℕ)
    (s : ℝ) :
    (⟨i, j, s⟩ : SimPair) ∈ pairsFromEmbeddings e t ↔
      i < j ∧ j < e.length ∧
      s = cosineSimilarity (e.getD i []) (e.getD j []) ∧ t ≤ s := by
  unfold pairsFromEmbeddings
  simp only [List.mem_flatMap, List.mem_filterMap, List.mem_range]
  constructor
  · rintro ⟨i', hi', j', hj', hsome⟩
    by_cases hts : t ≤ cosineSimilarity (e.getD i' []) (e.getD j' [])
    · rw [if_pos hts] at hsome
      obtain ⟨hii, hjj, hss⟩ : i' = i ∧ j' = j ∧
          cosineSimilarity (e.getD i' []) (e.getD j' []) = s := by
        have h := Option.some.inj hsome
        exact ⟨congrArg SimPair.i h, congrArg SimPair.j h,
          congrArg SimPair.score h⟩
      have hmem := List.mem_range'_1.mp hj'
      rw [hii] at hi'
      rw [hii, hjj] at hmem hss hts
      have hij : i < j := lt_of_lt_of_le (Nat.lt_succ_self i) hmem.1
      have hjlen : j < e.length := by
        have hupper := hmem.2
        have hle : i < e.length := hi'
        omega
      exact ⟨hij, hjlen, hss.symm, hss ▸ hts⟩
    · rw [if_neg hts] at hsome
      cases hsome
  · rintro ⟨hij, hjlen, hs, hts⟩
    refine ⟨i, lt_trans hij hjlen, j, ?_, ?_⟩
    · rw [List.mem_range'_1]
      constructor
      · omega
      · omega
    · rw [if_pos (hs ▸ hts), hs]

/-- Claim C1: for every item list and threshold, the pair list returned
by `findDuplicates` contains exactly the index pairs (i, j) with i < j
whose embedding vectors have cosine similarity at least the threshold;
in particular every returned pair has i < j and score ≥ threshold. -/
theorem findDuplicates_pairs_exact (embed : List String → List (List ℝ))
    (items : List Item) (t : ℝ) (i j : ℕ) (s : ℝ) :
    (⟨i, j, s⟩ : SimPair) ∈ (findDuplicates embed items t).pairs ↔
      i < j ∧ j < (findDuplicates embed items t).embeddings.length ∧
      s = cosineSimilarity
            ((findDuplicates embed items t).embeddings.getD i [])
            ((findDuplicates embed items t).embeddings.getD j []) ∧
      t ≤ s := by
  unfold findDuplicates
  by_cases hempty : items.isEmpty
  · simp [hempty]
  · simp only [hempty, if_false]
    exact mem_pairsFromEmbeddings _ t i j s

/-! ## Lemmas about `buildRowsFromCells` -/

theorem lookupRow_updateRow_self (m : RowsMap) (r : ℕ) (v : List String) :
    lookupRow (updateRow m r v) r = some v := by
  induction m with
  | nil => simp [updateRow, lookupRow]
  | cons kv rest ih =>
    obtain ⟨k, w⟩ := kv
    by_cases h : k = r
    · simp [updateRow, lookupRow, h]
    · simp [updateRow, lookupRow, h, ih]

theorem lookupRow_updateRow_ne (m : RowsMap) (r r' : ℕ) (v : List String)
    (h : r' ≠ r) :
    lookupRow (updateRow m r v) r' = lookupRow m r' := by
  induction m with
  | nil => simp [updateRow, lookupRow, Ne.symm h]
  | cons kv rest ih =>
    obtain ⟨k, w⟩ := kv
    by_cases hk : k = r
    · subst hk
      simp [updateRow, lookupRow, Ne.symm h]
    · simp only [updateRow, if_neg hk, lookupRow, ih]

theorem setSlot_get_self (arr : List String) (k : ℕ) (v : String) :
    (setSlot arr k v).get? k = some v := by
  unfold setSlot
  by_cases h : k < arr.length
  · rw [if_pos h, List.get?_set_eq, List.get?_eq_get h]
    rfl
  · rw [if_neg h]
    have hlen : arr.length ≤ k := le_of_not_lt h
    rw [List.append_assoc, List.get?_append_right hlen,
      List.get?_append_right (by simp [hlen])]
    simp

theorem setSlot_get_ne (arr : List String) (k k' : ℕ) (v t : String)
    (hne : k ≠ k') (h : arr.get? k' = some t) :
    (setSlot arr k v).get? k' = some t := by
  have hk' : k' < arr.length := by
    obtain ⟨hl, _⟩ := List.get?_eq_some.mp h
    exact hl
  unfold setSlot
  by_cases hk : k < arr.length
  · rw [if_pos hk, List.get?_set_ne _ _ hne, h]
  · rw [if_neg hk, List.append_assoc, List.get?_append hk', h]

theorem buildRowsFromCells_append (cells : List CellEl) (c : CellEl) :
    buildRowsFromCells (cells ++ [c]) =
      buildRowsStep (buildRowsFromCells cells) c := by
  unfold buildRowsFromCells
  rw [List.foldl_append]
  rfl

theorem buildRowsStep_none (m : RowsMap) (c : CellEl)
    (h : c.ariaRow = none) : buildRowsStep m c = m := by
  unfold buildRowsStep
  rw [h]

theorem buildRowsStep_push (m : RowsMap) (c : CellEl) (r : ℕ)
    (hr : c.ariaRow = some r) (hc : c.ariaCol = none) :
    buildRowsStep m c =
      updateRow m r ((lookupRow m r).getD [] ++ [c.text.trim]) := by
  unfold buildRowsStep
  rw [hr, hc]

theorem buildRowsStep_set0 (m : RowsMap) (c : CellEl) (r : ℕ)
    (hr : c.ariaRow = some r) (hc : c.ariaCol = some 0) :
    buildRowsStep m c = updateRow m r ((lookupRow m r).getD []) := by
  unfold buildRowsStep
  rw [hr, hc]
  show updateRow m r (if 0 = 0 then (lookupRow m r).getD []
    else setSlot ((lookupRow m r).getD []) (0 - 1) c.text.trim) =
    updateRow m r ((lookupRow m r).getD [])
  rw [if_pos rfl]

theorem buildRowsStep_set (m : RowsMap) (c : CellEl) (r col : ℕ)
    (hr : c.ariaRow = some r) (hc : c.ariaCol = some col) (h0 : col ≠ 0) :
    buildRowsStep m c =
      updateRow m r
        (setSlot ((lookupRow m r).getD []) (col - 1) c.text.trim) := by
  unfold buildRowsStep
  rw [hr, hc]
  show updateRow m r (if col = 0 then (lookupRow m r).getD []
    else setSlot ((lookupRow m r).getD []) (col - 1) c.text.trim) =
    updateRow m r (setSlot ((lookupRow m r).getD []) (col - 1) c.text.trim)
  rw [if_neg h0]

theorem buildRowsStep_preserves (m : RowsMap) (d : CellEl) (r k : ℕ)
    (t : String) (h : slotAt m r k = some t)
    (hne : ¬(d.ariaRow = some r ∧ d.ariaCol = some (k + 1))) :
    slotAt (buildRowsStep m d) r k = some t := by
  cases hrow : d.ariaRow with
  | none => rw [buildRowsStep_none m d hrow]; exact h
  | some r' =>
    by_cases hr : r' = r
    · subst hr
      have hk : k < ((lookupRow m r').getD []).length := by
        obtain ⟨hl, _⟩ := List.get?_eq_some.mp h
        exact hl
      cases hcol : d.ariaCol with
      | none =>
        rw [buildRowsStep_push m d r' hrow hcol]
        unfold slotAt at h ⊢
        rw [lookupRow_updateRow_self]
        simp only [Option.getD_some]
        rw [List.get?_append hk]
        exact h
      | some col =>
        have hcolne : col ≠ k + 1 := fun hcc => hne ⟨hrow, hcc ▸ hcol⟩
        by_cases hc0 : col = 0
        · subst hc0
          rw [buildRowsStep_set0 m d r' hrow hcol]
          unfold slotAt at h ⊢
          rw [lookupRow_updateRow_self]
          simpa using h
        · rw [buildRowsStep_set m d r' col hrow hcol hc0]
          unfold slotAt at h ⊢
          rw [lookupRow_updateRow_self]
          simp only [Option.getD_some]
          exact setSlot_get_ne _ _ _ _ _ (by omega) h
    · have hx : ∀ X, slotAt (updateRow m r' X) r k = slotAt m r k := by
        intro X
        unfold slotAt
        rw [lookupRow_updateRow_ne m r' r X (fun hh => hr hh.symm)]
      cases hcol : d.ariaCol with
      | none => rw [buildRowsStep_push m d r' hrow hcol, hx]; exact h
      | some col =>
        by_cases hc0 : col = 0
        · subst hc0
          rw [buildRowsStep_set0 m d r' hrow hcol, hx]
          exact h
        · rw [buildRowsStep_set m d r' col hrow hcol hc0, hx]
          exact h

theorem buildRows_slot (cells : List CellEl)
    (hnodup : (cells.map (fun c => (c.ariaRow, c.ariaCol))).Nodup) :
    ∀ c ∈ cells, ∀ r k, c.ariaRow = some r → c.ariaCol = some (k + 1) →
      slotAt (buildRowsFromCells cells) r k = some c.text.trim := by
  induction cells using List.reverseRecOn with
  | nil => intro c hc; cases hc
  | append_singleton cs d ih =>
    intro c hc r k hrow hcol
    rw [buildRowsFromCells_append]
    have hnodup' : (cs.map (fun c => (c.ariaRow, c.ariaCol))).Nodup := by
      rw [List.map_append] at hnodup
      exact (List.nodup_append.mp hnodup).1
    have hdnotin : (d.ariaRow, d.ariaCol) ∉
        cs.map (fun c => (c.ariaRow, c.ariaCol)) := by
      rw [List.map_append] at hnodup
      have hdisj := (List.nodup_append.mp hnodup).2.2
      intro hmem
      exact hdisj hmem (by simp)
    rcases List.mem_append.mp hc with hcs | hd
    · have hslot := ih hnodup' c hcs r k hrow hcol
      apply buildRowsStep_preserves _ _ _ _ _ hslot
      rintro ⟨hdr, hdc⟩
      apply hdnotin
      rw [hdr, hdc, ← hrow, ← hcol]
      exact List.mem_map.mpr ⟨c, hcs, rfl⟩
    · have hcd : c = d := by simpa using hd
      subst hcd
      rw [buildRowsStep_set _ c r (k + 1) hrow hcol (Nat.succ_ne_zero k)]
      unfold slotAt
      rw [lookupRow_updateRow_self]
      simp only [Option.getD_some, Nat.add_sub_cancel]
      exact setSlot_get_self _ _ _

theorem buildRows_append_only (cells : List CellEl)
    (hcol : ∀ c ∈ cells, c.ariaCol = none) :
    ∀ r, (lookupRow (buildRowsFromCells cells) r).getD [] =
      (cells.filter (fun c => c.ariaRow == some r)).map
        (fun c => c.text.trim) := by
  induction cells using List.reverseRecOn with
  | nil => intro r; simp [buildRowsFromCells, lookupRow]
  | append_singleton cs d ih =>
    intro r
    have hcol' : ∀ c ∈ cs, c.ariaCol = none := fun c hc =>
      hcol c (List.mem_append.mpr (Or.inl hc))
    have hdcol : d.ariaCol = none := hcol d (by simp)
    rw [buildRowsFromCells_append]
    cases hrow : d.ariaRow with
    | none =>
      rw [buildRowsStep_none _ d hrow, List.filter_append]
      have hf : (List.filter (fun c => c.ariaRow == some r) [d]) = [] := by
        simp [List.filter, hrow]
      rw [hf]
      simp [ih hcol']
    | some r' =>
      rw [buildRowsStep_push _ d r' hrow hdcol, List.filter_append]
      by_cases hr : r' = r
      · subst hr
        have hf : (List.filter (fun c => c.ariaRow == some r') [d]) = [d] := by
          simp [List.filter, hrow]
        rw [hf, lookupRow_updateRow_self]
        simp [ih hcol' r']
      · have hbeq : (d.ariaRow == some r) = false := by
          rw [hrow]
          exact beq_eq_false_iff_ne.mpr (by simpa using hr)
        have hf : (List.filter (fun c => c.ariaRow == some r) [d]) = [] := by
          simp [List.filter, hbeq]
        rw [hf, lookupRow_updateRow_ne _ _ _ _ (fun hh => hr hh.symm)]
        simp [ih hcol' r]

theorem sortedHead_min (l : List ℕ) (h : l ≠ []) :
    (List.insertionSort (· ≤ ·) l).headD 0 ∈ l ∧
    ∀ x ∈ l, (List.insertionSort (· ≤ ·) l).headD 0 ≤ x := by
  have hperm : List.Perm (List.insertionSort (· ≤ ·) l) l :=
    List.perm_insertionSort _ l
  have hsorted : List.Sorted (· ≤ ·) (List.insertionSort (· ≤ ·) l) :=
    List.sorted_insertionSort _ l
  have hne : List.insertionSort (· ≤ ·) l ≠ [] := by
    intro h0
    have := hperm.length_eq
    rw [h0] at this
    exact h (List.length_eq_zero.mp this.symm)
  obtain ⟨h0, tl, heq⟩ := List.exists_cons_of_ne_nil hne
  rw [heq]
  simp only [List.headD_cons]
  constructor
  · exact hperm.mem_iff.mp (heq ▸ List.mem_cons_self h0 tl)
  · intro x hx
    have hxs : x ∈ h0 :: tl := heq ▸ hperm.mem_iff.mpr hx
    rcases List.mem_cons.mp hxs with rfl | hmem
    · exact le_refl x
    · rw [heq] at hsorted
      exact (List.sorted_cons.mp hsorted).1 x hmem

/-- Claim C4: row reconstruction places each cell's trimmed text at
position (column index − 1) of its row's array when a column position is
present (for cells with distinct positions), appends the trimmed text
when no column position is present, and the designated header row of the
resulting mapping is the lowest row index present. -/
theorem buildRowsFromCells_spec (cells : List CellEl) :
    ((cells.map (fun c => (c.ariaRow, c.ariaCol))).Nodup →
      ∀ c ∈ cells, ∀ r k, c.ariaRow = some r → c.ariaCol = some (k + 1) →
        slotAt (buildRowsFromCells cells) r k = some c.text.trim) ∧
    ((∀ c ∈ cells, c.ariaCol = none) →
      ∀ r, (lookupRow (buildRowsFromCells cells) r).getD [] =
        (cells.filter (fun c => c.ariaRow == some r)).map
          (fun c => c.text.trim)) ∧
    (mapKeys (buildRowsFromCells cells) ≠ [] →
      headerRowIndex (buildRowsFromCells cells) ∈
        mapKeys (buildRowsFromCells cells) ∧
      ∀ k ∈ mapKeys (buildRowsFromCells cells),
        headerRowIndex (buildRowsFromCells cells) ≤ k) :=
  ⟨fun hnodup => buildRows_slot cells hnodup,
   fun hcol => buildRows_append_only cells hcol,
   fun hne => sortedHead_min (mapKeys (buildRowsFromCells cells)) hne⟩

/-- Witness for C4 at concrete cells: an indexed cell lands (trimmed) at
its column slot, column-less cells are appended in order, and the header
row is the lowest row index. -/
theorem buildRowsFromCells_spec_witness :
    slotAt (buildRowsFromCells
        [⟨some 2, some 1, " x "⟩, ⟨some 1, some 1, "h"⟩]) 2 0 =
      some (" x " : String).trim ∧
    (lookupRow (buildRowsFromCells
        [⟨some 1, none, "a"⟩, ⟨some 1, none, "b"⟩]) 1).getD [] =
      [("a" : String).trim, ("b" : String).trim] ∧
    headerRowIndex (buildRowsFromCells
        [⟨some 2, some 1, " x "⟩, ⟨some 1, some 1, "h"⟩]) = 1 := by
  refine ⟨?_, ?_, ?_⟩
  · exact (buildRowsFromCells_spec
        [⟨some 2, some 1, " x "⟩, ⟨some 1, some 1, "h"⟩]).1 (by decide)
        ⟨some 2, some 1, " x "⟩ (by decide) 2 0 rfl rfl
  · have h := (buildRowsFromCells_spec
        [⟨some 1, none, "a"⟩, ⟨some 1, none, "b"⟩]).2.1 (by decide) 1
    simpa using h
  · have h := (buildRowsFromCells_spec
        [⟨some 2, some 1, " x "⟩, ⟨some 1, some 1, "h"⟩]).2.2 (by decide)
    have h2 := h.2 1 (by decide)
    have h1 : headerRowIndex (buildRowsFromCells
        [⟨some 2, some 1, " x "⟩, ⟨some 1, some 1, "h"⟩]) ∈
        mapKeys (buildRowsFromCells
          [⟨some 2, some 1, " x "⟩, ⟨some 1, some 1, "h"⟩]) := h.1
    revert h1 h2
    decide

/-! ## Lemmas about the detection pass -/

theorem run_lt2 (embed : List String → List (List ℝ)) (m : RowsMap)
    (s : DomState) (h : (sortedRowIndices m).length < 2) :
    runDuplicateDetectionFromRowsMap embed m s =
      (⟨some ([], 0), ∅⟩, ⟨[], 0, Msg.noDuplicates⟩) := by
  unfold runDuplicateDetectionFromRowsMap
  rw [if_pos h]
  rfl

theorem run_noPairs (embed : List String → List (List ℝ)) (m : RowsMap)
    (s : DomState) (h : ¬(sortedRowIndices m).length < 2)
    (hp : (findDuplicates embed (itemsForEmbedding m)
      DUP_THRESHOLD).pairs.isEmpty = true) :
    runDuplicateDetectionFromRowsMap embed m s =
      (⟨some ([], (itemsForEmbedding m).length), ∅⟩,
       ⟨[], (itemsForEmbedding m).length, Msg.noDuplicates⟩) := by
  unfold runDuplicateDetectionFromRowsMap
  rw [if_neg h]
  show (if (findDuplicates embed (itemsForEmbedding m)
        DUP_THRESHOLD).pairs.isEmpty = true then _ else _) = _
  rw [if_pos hp]
  rfl

theorem run_found (embed : List String → List (List ℝ)) (m : RowsMap)
    (s : DomState) (h : ¬(sortedRowIndices m).length < 2)
    (hp : (findDuplicates embed (itemsForEmbedding m)
      DUP_THRESHOLD).pairs.isEmpty = false) :
    runDuplicateDetectionFromRowsMap embed m s =
      (⟨some ((findDuplicates embed (itemsForEmbedding m)
          DUP_THRESHOLD).pairs, (itemsForEmbedding m).length), ∅⟩,
       ⟨(findDuplicates embed (itemsForEmbedding m) DUP_THRESHOLD).pairs,
        (itemsForEmbedding m).length,
        Msg.duplicatesFound
          (findDuplicates embed (itemsForEmbedding m) DUP_THRESHOLD).pairs.length
          (duplicateRowsOf (itemsForEmbedding m)
            (findDuplicates embed (itemsForEmbedding m) DUP_THRESHOLD).pairs)⟩) := by
  unfold runDuplicateDetectionFromRowsMap
  rw [if_neg h]
  show (if (findDuplicates embed (itemsForEmbedding m)
        DUP_THRESHOLD).pairs.isEmpty = true then _ else _) = _
  rw [if_neg (by rw [hp]; exact Bool.false_ne_true)]
  rfl

/-- Claim C2: running the detection pass twice on an unchanged rows map
(with the embedding function a fixed deterministic function) yields the
same DOM state (overlay and highlighted rows) and the same pass result
(pair list, item count and message): the pass, with its
clear-then-reapply of highlights, is idempotent. -/
theorem run_idempotent (embed : List String → List (List ℝ)) (m : RowsMap)
    (s : DomState) :
    runDuplicateDetectionFromRowsMap embed m
        (runDuplicateDetectionFromRowsMap embed m s).1 =
      runDuplicateDetectionFromRowsMap embed m s := by
  by_cases h : (sortedRowIndices m).length < 2
  · rw [run_lt2 embed m s h, run_lt2 embed m _ h]
  · cases hp : (findDuplicates embed (itemsForEmbedding m)
        DUP_THRESHOLD).pairs.isEmpty
    · rw [run_found embed m s h hp, run_found embed m _ h hp]
    · rw [run_noPairs embed m s h hp, run_noPairs embed m _ h hp]

/-- Claim C9: on a rows map with fewer than two row indices, the pass
returns an empty pair list and emits the NO_DUPLICATES message (so never
DUPLICATES_FOUND or DUPLICATE_ERROR). -/
theorem run_fewRows (embed : List String → List (List ℝ)) (m : RowsMap)
    (s : DomState) (h : (mapKeys m).length < 2) :
    (runDuplicateDetectionFromRowsMap embed m s).2.pairs = [] ∧
    (runDuplicateDetectionFromRowsMap embed m s).2.message =
      Msg.noDuplicates := by
  have hs : (sortedRowIndices m).length < 2 := by
    have hlen := (List.perm_insertionSort (· ≤ ·) (mapKeys m)).length_eq
    unfold sortedRowIndices
    omega
  rw [run_lt2 embed m s hs]
  exact ⟨rfl, rfl⟩

/-- Witness for C9 on a concrete single-row map. -/
theorem run_fewRows_witness :
    (runDuplicateDetectionFromRowsMap (fun _ => []) [(1, ["a"])]
        ⟨none, ∅⟩).2.pairs = [] ∧
    (runDuplicateDetectionFromRowsMap (fun _ => []) [(1, ["a"])]
        ⟨none, ∅⟩).2.message = Msg.noDuplicates :=
  run_fewRows (fun _ => []) [(1, ["a"])] ⟨none, ∅⟩ (by decide)

/-! ## Concrete evaluation lemmas for the index-to-id mapping claims -/

theorem cos_single_one : cosineSimilarity [(1 : ℝ)] [1] = 1 := by
  unfold cosineSimilarity
  norm_num [sumSq, dotList]

theorem pairsFromEmbeddings_two (v w : List ℝ) (t : ℝ) :
    pairsFromEmbeddings [v, w] t =
      if t ≤ cosineSimilarity v w then [⟨0, 1, cosineSimilarity v w⟩]
      else [] := by
  by_cases h : t ≤ cosineSimilarity v w
  · rw [if_pos h]
    unfold pairsFromEmbeddings
    simp [List.range_succ, List.range', h]
  · rw [if_neg h]
    unfold pairsFromEmbeddings
    simp [List.range_succ, List.range', h]

theorem mem_foldl_insert2 (items : List Item) :
    ∀ (pairs : List SimPair) (s : Finset ℕ) (x : ℕ), x ∈ s →
      x ∈ pairs.foldl (fun s p =>
        insert (itemIdAt items p.i) (insert (itemIdAt items p.j) s)) s := by
  intro pairs
  induction pairs with
  | nil => intro s x hx; exact hx
  | cons q qs ih =>
    intro s x hx
    exact ih _ x (Finset.mem_insert_of_mem (Finset.mem_insert_of_mem hx))

theorem mem_duplicateRowsOf (items : List Item) :
    ∀ (pairs : List SimPair) (s : Finset ℕ) (p : SimPair), p ∈ pairs →
      itemIdAt items p.i ∈ pairs.foldl (fun s p =>
        insert (itemIdAt items p.i) (insert (itemIdAt items p.j) s)) s ∧
      itemIdAt items p.j ∈ pairs.foldl (fun s p =>
        insert (itemIdAt items p.i) (insert (itemIdAt items p.j) s)) s := by
  intro pairs
  induction pairs with
  | nil => intro s p hp; cases hp
  | cons q qs ih =>
    intro s p hp
    rcases List.mem_cons.mp hp with rfl | hmem
    · constructor
      · exact mem_foldl_insert2 items qs _ _ (Finset.mem_insert_self _ _)
      · exact mem_foldl_insert2 items qs _ _
          (Finset.mem_insert_of_mem (Finset.mem_insert_self _ _))
    · exact ih _ p hmem

theorem run_const3 (m : RowsMap) (a b c : ℕ) (s : DomState)
    (hkeys : sortedRowIndices m = [a, b, c]) :
    runDuplicateDetectionFromRowsMap (fun ts => ts.map (fun _ => [1])) m s =
      (⟨some ([⟨0, 1, 1⟩], 2), ∅⟩,
       ⟨[⟨0, 1, 1⟩], 2, Msg.duplicatesFound 1 (insert b (insert c ∅))⟩) := by
  obtain ⟨tb, tc, hitems⟩ : ∃ tb tc,
      itemsForEmbedding m = [⟨b, tb⟩, ⟨c, tc⟩] := by
    unfold itemsForEmbedding
    rw [hkeys]
    exact ⟨_, _, rfl⟩
  have hpairs : (findDuplicates (fun ts => ts.map (fun _ => [1]))
      (itemsForEmbedding m) DUP_THRESHOLD).pairs = [⟨0, 1, 1⟩] := by
    unfold findDuplicates
    rw [hitems]
    simp only [List.isEmpty_eq_true, List.map_cons, List.map_nil,
      if_neg (List.cons_ne_nil _ _)]
    rw [pairsFromEmbeddings_two, cos_single_one,
      if_pos (by unfold DUP_THRESHOLD; norm_num)]
  have hlen2 : ¬(sortedRowIndices m).length < 2 := by
    rw [hkeys]
    norm_num
  have hpne : (findDuplicates (fun ts => ts.map (fun _ => [1]))
      (itemsForEmbedding m) DUP_THRESHOLD).pairs.isEmpty = false := by
    rw [hpairs]
    rfl
  rw [run_found _ m s hlen2 hpne, hpairs, hitems]
  simp [duplicateRowsOf, itemIdAt]

/-- Claim C3, counterexample: with data rows at grid rows 5 and 9 (header
at row 1) and an embedding function making them duplicates, the pass's
surviving pair is (0, 1); the overlay displays it as rows 2 and 3
(`p.i + 2` / `p.j + 2`), while the rows' original ids are 5 and 9 — the
displayed numbers are not the translated ids. -/
theorem run_displayed_rows_counterexample :
    (runDuplicateDetectionFromRowsMap (fun ts => ts.map (fun _ => [1]))
        [(1, ["h"]), (5, ["a"]), (9, ["b"])] ⟨none, ∅⟩).2.pairs =
      [⟨0, 1, 1⟩] ∧
    overlayDisplayedRows ⟨0, 1, 1⟩ = (2, 3) ∧
    itemIdAt (itemsForEmbedding [(1, ["h"]), (5, ["a"]), (9, ["b"])]) 0 = 5 ∧
    itemIdAt (itemsForEmbedding [(1, ["h"]), (5, ["a"]), (9, ["b"])]) 1 = 9 ∧
    ((2, 3) : ℕ × ℕ) ≠ (5, 9) := by
  have hkeys : sortedRowIndices
      ([(1, ["h"]), (5, ["a"]), (9, ["b"])] : RowsMap) = [1, 5, 9] := by
    decide
  have hrun := run_const3 _ 1 5 9 ⟨none, ∅⟩ hkeys
  refine ⟨by rw [hrun], rfl, ?_, ?_, by decide⟩
  · unfold itemsForEmbedding
    rw [hkeys]
    simp [itemIdAt]
  · unfold itemsForEmbedding
    rw [hkeys]
    simp [itemIdAt]

/-- Claim C3 (amended): every surviving pair's indices are translated to
the corresponding rows' original ids before being written into the
persistent UI state (the rows set of the DUPLICATES_FOUND message); the
overlay display instead shows i+2 and j+2, which coincides with the
original ids when the data rows occupy consecutive grid rows from row 2,
as in the worked scenario (header row 1, data rows 2 and 3), where pair
(0, 1) is displayed as rows 2 and 3. -/
theorem run_pairs_translated :
    (∀ (embed : List String → List (List ℝ)) (m : RowsMap) (s : DomState)
      (cnt : ℕ) (rows : Finset ℕ),
      (runDuplicateDetectionFromRowsMap embed m s).2.message =
        Msg.duplicatesFound cnt rows →
      ∀ p ∈ (runDuplicateDetectionFromRowsMap embed m s).2.pairs,
        itemIdAt (itemsForEmbedding m) p.i ∈ rows ∧
        itemIdAt (itemsForEmbedding m) p.j ∈ rows) ∧
    ((runDuplicateDetectionFromRowsMap (fun ts => ts.map (fun _ => [1]))
        [(1, ["Bug ID", "Title", "Notes"]),
         (2, ["1", "Login fails on submit", "N/A"]),
         (3, ["2", "Login fails when submitting", "See above"])]
        ⟨none, ∅⟩).2.pairs = [⟨0, 1, 1⟩] ∧
     overlayDisplayedRows ⟨0, 1, 1⟩ = (2, 3) ∧
     itemIdAt (itemsForEmbedding
        [(1, ["Bug ID", "Title", "Notes"]),
         (2, ["1", "Login fails on submit", "N/A"]),
         (3, ["2", "Login fails when submitting", "See above"])]) 0 = 2 ∧
     itemIdAt (itemsForEmbedding
        [(1, ["Bug ID", "Title", "Notes"]),
         (2, ["1", "Login fails on submit", "N/A"]),
         (3, ["2", "Login fails when submitting", "See above"])]) 1 = 3) := by
  constructor
  · intro embed m s cnt rows hmsg p hp
    by_cases h2 : (sortedRowIndices m).length < 2
    · rw [run_lt2 embed m s h2] at hmsg
      cases hmsg
    · cases hpe : (findDuplicates embed (itemsForEmbedding m)
          DUP_THRESHOLD).pairs.isEmpty
      · rw [run_found embed m s h2 hpe] at hmsg hp
        have hrows : rows = duplicateRowsOf (itemsForEmbedding m)
            (findDuplicates embed (itemsForEmbedding m) DUP_THRESHOLD).pairs := by
          cases hmsg
          rfl
        rw [hrows]
        exact mem_duplicateRowsOf (itemsForEmbedding m) _ ∅ p hp
      · rw [run_noPairs embed m s h2 hpe] at hmsg
        cases hmsg
  · have hkeys : sortedRowIndices
        ([(1, ["Bug ID", "Title", "Notes"]),
          (2, ["1", "Login fails on submit", "N/A"]),
          (3, ["2", "Login fails when submitting", "See above"])] : RowsMap) =
        [1, 2, 3] := by
      decide
    have hrun := run_const3 _ 1 2 3 ⟨none, ∅⟩ hkeys
    refine ⟨by rw [hrun], rfl, ?_, ?_⟩
    · unfold itemsForEmbedding
      rw [hkeys]
      simp [itemIdAt]
    · unfold itemsForEmbedding
      rw [hkeys]
      simp [itemIdAt]

/-- Witness for C3: in the worked scenario, the surviving pair's first
endpoint id (row 2) is a member of the persisted duplicate-rows set. -/
theorem run_pairs_translated_witness :
    itemIdAt (itemsForEmbedding
        [(1, ["Bug ID", "Title", "Notes"]),
         (2, ["1", "Login fails on submit", "N/A"]),
         (3, ["2", "Login fails when submitting", "See above"])]) 0 ∈
      insert 2 (insert 3 (∅ : Finset ℕ)) := by
  have hkeys : sortedRowIndices
      ([(1, ["Bug ID", "Title", "Notes"]),
        (2, ["1", "Login fails on submit", "N/A"]),
        (3, ["2", "Login fails when submitting", "See above"])] : RowsMap) =
      [1, 2, 3] := by
    decide
  have hrun := run_const3 _ 1 2 3 ⟨none, ∅⟩ hkeys
  have hmsg : (runDuplicateDetectionFromRowsMap
      (fun ts => ts.map (fun _ => [1]))
      [(1, ["Bug ID", "Title", "Notes"]),
       (2, ["1", "Login fails on submit", "N/A"]),
       (3, ["2", "Login fails when submitting", "See above"])]
      ⟨none, ∅⟩).2.message =
      Msg.duplicatesFound 1 (insert 2 (insert 3 ∅)) := by
    rw [hrun]
  have hmem : (⟨0, 1, 1⟩ : SimPair) ∈ (runDuplicateDetectionFromRowsMap
      (fun ts => ts.map (fun _ => [1]))
      [(1, ["Bug ID", "Title", "Notes"]),
       (2, ["1", "Login fails on submit", "N/A"]),
       (3, ["2", "Login fails when submitting", "See above"])]
      ⟨none, ∅⟩).2.pairs := by
    rw [hrun]
    exact List.mem_singleton.mpr rfl
  exact (run_pairs_translated.1 _ _ _ 1 _ hmsg ⟨0, 1, 1⟩ hmem).1

end BugSense
